import Mathlib

/-!
Verification of the poke-restock checker (`check_collection.py`).

The script is shallowly embedded below: Python dicts become association
lists (`dictLookup` / `dictInsert` mirror `d.get` and `d[k] = v`), the
per-product diff loop of `main` becomes `processProduct`, the per-source
loop becomes `processSource`/`runDiff`, the carry-over pass for handles
missing from every fetch becomes `carryOver`, and the text helpers
(`splitlines(keepends=True)`, `str.strip`, `chunk_text_by_lines`,
the send loop of `notify_discord`) are modelled character-list by
character-list.  Network and file I/O are modelled as an effect trace
(`Effect`) produced by `mainRun`, with fetch outcomes and webhook-send
outcomes supplied as oracles.
-/

set_option autoImplicit false

namespace Restock

/-- A product variant: the script only reads `v.get('available')`,
whose truthiness we model as a `Bool` (a missing key is falsy). -/
structure Variant where
  available : Bool
deriving DecidableEq, Repr

/-- A product record from a fetched `products.json` page:
`handle`, `title`, `variants`. -/
structure ProductRecord where
  handle : String
  title : String
  variants : List Variant
deriving DecidableEq, Repr

/-- A persisted per-product state:
`{'title': ..., 'available': ..., 'notified_for_available': ...}`. -/
structure ProductState where
  title : String
  available : Bool
  notified_for_available : Bool
deriving DecidableEq, Repr

/-- The `state['products']` dict, modelled as an association list in
insertion order (Python dicts preserve insertion order). -/
abbrev StateMap := List (String × ProductState)

/-- `d.get(k)` on a Python dict: the entry for `k`, if any.
(On a genuine dict keys are unique, so first match = the match.) -/
def dictLookup (m : StateMap) (k : String) : Option ProductState :=
  (m.find? (fun kv => kv.1 == k)).map Prod.snd

/-- `d[k] = v` on a Python dict: replace the entry in place if the key
is present, otherwise append it. -/
def dictInsert (m : StateMap) (k : String) (v : ProductState) : StateMap :=
  if m.any (fun kv => kv.1 == k) then
    m.map (fun kv => if kv.1 == k then (k, v) else kv)
  else
    m ++ [(k, v)]

/-- `current_avail = any(v.get('available') for v in p.get('variants', []))`. -/
def currentAvail (p : ProductRecord) : Bool :=
  p.variants.any (fun v => v.available)

/-- The notification link `f"{url}/products/{handle}"`. -/
def linkOf (url : String) (handle : String) : String :=
  url ++ "/products/" ++ handle

/-- Accumulated run data: the `new_state['products']` dict being built,
the two notification lists, and the `processed_handles` set (modelled as
the list of handles added, in order; only membership is ever used). -/
structure RunAcc where
  newState : StateMap
  newItems : List (String × String)
  restocked : List (String × String)
  processed : List String
deriving DecidableEq, Repr

/-- The body of the `for p in products` loop of `main`
(`check_collection.py` lines 97–143), translated clause by clause. -/
def processProduct (oldProducts : StateMap) (url : String)
    (acc : RunAcc) (p : ProductRecord) : RunAcc :=
  let handle := p.handle
  let title := p.title
  let current_avail := currentAvail p
  let processed := acc.processed ++ [handle]
  let old_p_state := dictLookup oldProducts handle
  let old_avail := match old_p_state with
    | some s => s.available
    | none => false
  let old_notified := match old_p_state with
    | some s => s.notified_for_available
    | none => false
  -- `new_p_state` starts with the old notification status
  let init_notified := old_notified
  let is_new_item := old_p_state.isNone
  let is_restock_transition := !old_avail && current_avail
  let step :
      List (String × String) × List (String × String) × Bool :=
    if is_new_item && current_avail then
      if !init_notified then
        (acc.newItems ++ [(title, linkOf url handle)], acc.restocked, true)
      else
        (acc.newItems, acc.restocked, false)
    else if is_restock_transition then
      if !init_notified then
        (acc.newItems, acc.restocked ++ [(title, linkOf url handle)], true)
      else
        (acc.newItems, acc.restocked, false)
    else
      (acc.newItems, acc.restocked, false)
  let should_notify := step.2.2
  let final_notified :=
    if current_avail && should_notify then true
    else if !current_avail then false
    else init_notified
  { newState := dictInsert acc.newState handle
      ⟨title, current_avail, final_notified⟩,
    newItems := step.1,
    restocked := step.2.1,
    processed := processed }

/-- One iteration of the `for url in urls` loop: a failed fetch
(`products is None`) is skipped, a successful one folds the product
loop over its records. -/
def processSource (oldProducts : StateMap) (acc : RunAcc)
    (src : String × Option (List ProductRecord)) : RunAcc :=
  match src.2 with
  | none => acc
  | some products => products.foldl (processProduct oldProducts src.1) acc

/-- The carry-over pass (`check_collection.py` lines 145–154): every
previously known handle not processed this run is rewritten with
`available=False`, `notified_for_available=False`, title preserved. -/
def carryOver (processed : List String) (ns : StateMap)
    (oldProducts : StateMap) : StateMap :=
  oldProducts.foldl
    (fun ns kv =>
      if processed.contains kv.1 then ns
      else dictInsert ns kv.1 ⟨kv.2.title, false, false⟩)
    ns

/-- The whole diff engine of `main`: fold the sources, then carry over
the handles absent from every successful fetch. -/
def runDiff (oldProducts : StateMap)
    (sources : List (String × Option (List ProductRecord))) : RunAcc :=
  let acc := sources.foldl (processSource oldProducts)
    ⟨[], [], [], []⟩
  { acc with newState := carryOver acc.processed acc.newState oldProducts }

/-- All product records of the successful fetches, tagged with their
source url, in encounter order (source order, then response order). -/
def recordStream : List (String × Option (List ProductRecord)) →
    List (String × ProductRecord)
  | [] => []
  | (_, none) :: rest => recordStream rest
  | (u, some ps) :: rest => ps.map (fun p => (u, p)) ++ recordStream rest

/-- The new-items entry a record contributes, if any: the diff loop
appends `(title, link)` to `new_items_to_notify` exactly for records
whose handle is absent from the prior state and currently available
(such a record necessarily has `old_notified = False`). -/
def newItemEntry (oldProducts : StateMap) (url : String)
    (p : ProductRecord) : Option (String × String) :=
  if (dictLookup oldProducts p.handle).isNone && currentAvail p then
    some (p.title, linkOf url p.handle)
  else
    none

/-- The restocked entry a record contributes, if any: a prior state
with `available=False` and `notified_for_available=False`, now
available. -/
def restockEntry (oldProducts : StateMap) (url : String)
    (p : ProductRecord) : Option (String × String) :=
  match dictLookup oldProducts p.handle with
  | none => none
  | some s =>
    if !s.available && currentAvail p && !s.notified_for_available then
      some (p.title, linkOf url p.handle)
    else
      none

/-- The `new_p_state` the diff loop stores for a record (it depends only
on the prior state and the record, not on the accumulator). -/
def stateOf (oldProducts : StateMap) (p : ProductRecord) : ProductState :=
  let current_avail := currentAvail p
  let old_p_state := dictLookup oldProducts p.handle
  let old_avail := match old_p_state with
    | some s => s.available
    | none => false
  let old_notified := match old_p_state with
    | some s => s.notified_for_available
    | none => false
  let is_new_item := old_p_state.isNone
  let is_restock_transition := !old_avail && current_avail
  let should_notify :=
    (is_new_item && current_avail && !old_notified) ||
    (!(is_new_item && current_avail) && is_restock_transition && !old_notified)
  let final_notified :=
    if current_avail && should_notify then true
    else if !current_avail then false
    else old_notified
  ⟨p.title, current_avail, final_notified⟩

/-- Folding the stored states of a record stream into a state dict. -/
def streamInsert (oldProducts : StateMap) (m : StateMap)
    (vq : String × ProductRecord) : StateMap :=
  dictInsert m vq.2.handle (stateOf oldProducts vq.2)

/-- Prepend a character to the first element of a list of lines
(creating a first line if there is none). -/
def consFirst (c : Char) : List (List Char) → List (List Char)
  | [] => [[c]]
  | l :: ls => (c :: l) :: ls

/-- `text.splitlines(keepends=True)`, modelled for the line boundaries
`\n`, `\r\n` and `\r`: split into lines, each keeping its terminator;
a final unterminated segment is its own line. -/
def splitlinesKeepends : List Char → List (List Char)
  | [] => []
  | '\r' :: '\n' :: rest => ['\r', '\n'] :: splitlinesKeepends rest
  | '\r' :: rest => ['\r'] :: splitlinesKeepends rest
  | '\n' :: rest => ['\n'] :: splitlinesKeepends rest
  | c :: rest => consFirst c (splitlinesKeepends rest)

/-- `s.strip()`: drop leading and trailing whitespace. -/
def pyStrip (cs : List Char) : List Char :=
  ((cs.dropWhile Char.isWhitespace).reverse.dropWhile Char.isWhitespace).reverse

/-- The loop of `chunk_text_by_lines` (`check_collection.py` lines
47–52): flush the current buffer (stripped) whenever adding the next
line would exceed the limit, and flush a nonempty final buffer. -/
def chunkLoop (limit : Nat) : List (List Char) → List (List Char) →
    List Char → List (List Char)
  | [], chunks, cur => if cur ≠ [] then chunks ++ [pyStrip cur] else chunks
  | line :: rest, chunks, cur =>
    if cur.length + line.length > limit then
      chunkLoop limit rest (chunks ++ [pyStrip cur]) line
    else
      chunkLoop limit rest chunks (cur ++ line)

/-- `chunk_text_by_lines(text, limit)`. -/
def chunk_text_by_lines (text : List Char) (limit : Nat) : List (List Char) :=
  chunkLoop limit (splitlinesKeepends text) [] []

/-- `raw.split(sep)` for a single-character separator: Python's
`str.split` with an explicit separator, which returns `['']` on the
empty string and keeps empty fields. -/
def splitOn (sep : Char) : List Char → List (List Char)
  | [] => [[]]
  | c :: rest =>
    if c = sep then [] :: splitOn sep rest
    else consFirst c (splitOn sep rest)

/-- `[u.strip() for u in raw.split(',') if u.strip()]`. -/
def parseUrls (raw : String) : List String :=
  (((splitOn ',' raw.data).map pyStrip).filter (fun cs => cs ≠ [])).map
    (fun cs => String.mk cs)

/-- The send loop of `notify_discord` (lines 61–69): chunks are posted
in order starting at index 1; `outcome i` tells whether the POST of the
`i`-th chunk succeeds; on a failure the loop breaks.  The result is the
list of `(index, chunk)` pairs actually attempted. -/
def sendTrace (outcome : Nat → Bool) :
    List (List Char) → Nat → List (Nat × List Char)
  | [], _ => []
  | c :: rest, idx =>
    (idx, c) :: (if outcome idx then sendTrace outcome rest (idx + 1) else [])

/-- `notify_discord(message)`: no-op when the webhook is unset or empty
(falsy), otherwise send the chunks of the message in order until the
first failure. -/
def notify_discord (webhook : Option String) (outcome : Nat → Bool)
    (message : List Char) : List (Nat × List Char) :=
  if webhook.getD "" = "" then []
  else sendTrace outcome (chunk_text_by_lines message 2000) 1

/-- A parsed JSON value, as `resp.json()` yields it. -/
inductive PyJson where
  | null
  | pybool (b : Bool)
  | pystr (s : String)
  | pynum (n : Int)
  | pyarr (elems : List PyJson)
  | pyobj (fields : List (String × PyJson))

/-- A Python exception escaping a modelled expression. -/
inductive PyExc where
  | attributeError
deriving DecidableEq, Repr

/-- Outcome of `requests.get(...)` + `raise_for_status()` +
`resp.json()`: either some `requests.exceptions.RequestException`
(timeout, connection error, non-2xx status, invalid JSON body) or the
parsed JSON value of a 2xx response. -/
inductive HttpOutcome where
  | requestError
  | ok (body : PyJson)

/-- `body.get('products', default)`: a dict lookup with default on a
`dict` value; on any other value `.get` raises `AttributeError`. -/
def jsonGet (j : PyJson) (key : String) (dflt : PyJson) :
    Except PyExc PyJson :=
  match j with
  | .pyobj fields =>
    .ok (((fields.reverse.find? (fun kv => kv.1 == key)).map Prod.snd).getD dflt)
  | _ => .error .attributeError

/-- `fetch_all_products(url)` (lines 36–43), as a function of the HTTP
outcome for that url: a `RequestException` is caught and reported as
`None`; otherwise the function evaluates `resp.json().get('products', [])`,
whose `AttributeError` on a non-dict body is *not* caught and escapes. -/
def fetch_all_products (resp : HttpOutcome) : Except PyExc (Option PyJson) :=
  match resp with
  | .requestError => .ok none
  | .ok body => (jsonGet body "products" (.pyarr [])).map some

/-- An observable side effect of `main`. -/
inductive Effect where
  | loadState
  | saveState (s : StateMap)
  | fetch (url : String)
  | post (chunk : List Char)
  | log (msg : String)
deriving DecidableEq, Repr

/-- The configuration diagnostic printed by `main`. -/
def configErrorMsg : String := "❌ Define DISCORD_WEBHOOK and COLLECTION_URLS in .env"

/-- `f"- {t} (<{link}>)"`. -/
def formatEntry (e : String × String) : String :=
  "- " ++ e.1 ++ " (<" ++ e.2 ++ ">)"

/-- The stock-alert message `main` builds (lines 162–171), with the
timestamp supplied as a parameter. -/
def buildMessage (ts : String) (newItems restocked : List (String × String)) :
    String :=
  let parts :=
    ["🚨 **Stock Alert** 🚨\nChecked at: " ++ ts ++ "\n"]
    ++ (if newItems ≠ [] then
          ["**🆕 New products:**"] ++ newItems.map formatEntry
        else [])
    ++ (if restocked ≠ [] then
          ["\n**🔄 Restocked:**"] ++ restocked.map formatEntry
        else [])
  String.intercalate "\n" parts

/-- The effect trace of `main`, with the environment, the prior state,
the per-url fetch results, the per-chunk send outcomes and the
timestamp supplied as parameters.  The configuration guard (lines
74–78) runs before any state load, fetch, save or post. -/
def mainRun (webhookEnv : Option String) (urlsEnv : Option String)
    (prior : StateMap) (fetchResult : String → Option (List ProductRecord))
    (outcome : Nat → Bool) (ts : String) : List Effect :=
  let urls := parseUrls (urlsEnv.getD "")
  if webhookEnv.getD "" = "" ∨ urls = [] then
    [Effect.log configErrorMsg]
  else
    let sources := urls.map (fun u => (u, fetchResult u))
    let r := runDiff prior sources
    Effect.loadState :: (urls.map Effect.fetch)
      ++ [Effect.saveState r.newState]
      ++ (if r.newItems = [] ∧ r.restocked = [] then
            [Effect.log "No new products or restocks to notify about."]
          else
            (notify_discord webhookEnv outcome
              (buildMessage ts r.newItems r.restocked).data).map
              (fun ic => Effect.post ic.2))

/-! ### Dictionary lemmas -/

theorem dictLookup_nil (k : String) : dictLookup [] k = none := rfl

theorem find_map_replace_ne (m : StateMap) (k : String) (v : ProductState)
    (h : String) (hne : h ≠ k) :
    (m.map (fun kv => if kv.1 == k then (k, v) else kv)).find?
        (fun kv => kv.1 == h) =
      m.find? (fun kv => kv.1 == h) := by
  induction m with
  | nil => rfl
  | cons kv t ih =>
    simp only [List.map_cons]
    by_cases hkv : kv.1 = k
    · rw [if_pos (beq_iff_eq.mpr hkv)]
      rw [List.find?_cons_of_neg _ (by simp [Ne.symm hne]),
        List.find?_cons_of_neg _ (by simp [hkv, Ne.symm hne])]
      exact ih
    · rw [if_neg (by simp [hkv])]
      by_cases hh : kv.1 = h
      · rw [List.find?_cons_of_pos _ (by simp [hh]),
          List.find?_cons_of_pos _ (by simp [hh])]
      · rw [List.find?_cons_of_neg _ (by simp [hh]),
          List.find?_cons_of_neg _ (by simp [hh])]
        exact ih

theorem find_map_replace_eq (m : StateMap) (k : String) (v : ProductState)
    (hk : m.any (fun kv => kv.1 == k) = true) :
    (m.map (fun kv => if kv.1 == k then (k, v) else kv)).find?
        (fun kv => kv.1 == k) =
      some (k, v) := by
  induction m with
  | nil => simp at hk
  | cons kv t ih =>
    simp only [List.map_cons]
    by_cases hkv : kv.1 = k
    · rw [if_pos (beq_iff_eq.mpr hkv)]
      rw [List.find?_cons_of_pos _ (by simp)]
    · have ht : t.any (fun kv => kv.1 == k) = true := by
        rw [List.any_cons] at hk
        cases hb : (kv.1 == k) with
        | true => exact absurd (beq_iff_eq.mp hb) hkv
        | false => rw [hb, Bool.false_or] at hk; exact hk
      rw [if_neg (by simp [hkv])]
      rw [List.find?_cons_of_neg _ (by simp [hkv])]
      exact ih ht

theorem find_not_mem (m : StateMap) (k : String)
    (hk : m.any (fun kv => kv.1 == k) = false) :
    m.find? (fun kv => kv.1 == k) = none := by
  rw [List.find?_eq_none]
  intro kv hkv hbeq
  have hany : m.any (fun kv => kv.1 == k) = true :=
    List.any_eq_true.mpr ⟨kv, hkv, hbeq⟩
  rw [hk] at hany
  exact Bool.false_ne_true hany

theorem dictLookup_not_mem (m : StateMap) (k : String)
    (hk : m.any (fun kv => kv.1 == k) = false) :
    dictLookup m k = none := by
  simp [dictLookup, find_not_mem m k hk]

theorem dictLookup_insert (m : StateMap) (k : String) (v : ProductState)
    (h : String) :
    dictLookup (dictInsert m k v) h =
      if h = k then some v else dictLookup m h := by
  unfold dictInsert
  by_cases hk : m.any (fun kv => kv.1 == k) = true
  · simp only [hk, if_true]
    by_cases he : h = k
    · subst he
      unfold dictLookup
      rw [find_map_replace_eq m h v hk]
      simp
    · unfold dictLookup
      rw [find_map_replace_ne m k v h he]
      simp [he]
  · simp only [Bool.not_eq_true] at hk
    simp only [hk, Bool.false_eq_true, if_false]
    unfold dictLookup
    by_cases he : h = k
    · subst he
      rw [List.find?_append, find_not_mem m h hk]
      have h1 : ([(h, v)].find? (fun kv => kv.1 == h)) = some (h, v) :=
        List.find?_cons_of_pos _ (by simp)
      rw [h1]
      simp
    · rw [List.find?_append]
      have h2 : ([(k, v)].find? (fun kv => kv.1 == h)) = none := by
        rw [List.find?_cons_of_neg _ (by simp [Ne.symm he])]
        rfl
      rw [h2]
      simp [he]

/-! ### Closed form of the diff engine -/

theorem processProduct_eq (oldProducts : StateMap) (url : String)
    (acc : RunAcc) (p : ProductRecord) :
    processProduct oldProducts url acc p =
      { newState := dictInsert acc.newState p.handle (stateOf oldProducts p),
        newItems := acc.newItems ++ (newItemEntry oldProducts url p).toList,
        restocked := acc.restocked ++ (restockEntry oldProducts url p).toList,
        processed := acc.processed ++ [p.handle] } := by
  unfold processProduct stateOf newItemEntry restockEntry
  cases hl : dictLookup oldProducts p.handle with
  | none => cases hc : currentAvail p <;> simp [hl, hc]
  | some s =>
    cases hc : currentAvail p <;> cases ha : s.available <;>
      cases hn : s.notified_for_available <;> simp [hl, hc, ha, hn]

theorem foldl_processProduct_eq (oldProducts : StateMap) (url : String)
    (ps : List ProductRecord) (acc : RunAcc) :
    ps.foldl (processProduct oldProducts url) acc =
      { newState := (ps.map (fun p => (url, p))).foldl
          (streamInsert oldProducts) acc.newState,
        newItems := acc.newItems ++ (ps.map (fun p => (url, p))).filterMap
          (fun vq => newItemEntry oldProducts vq.1 vq.2),
        restocked := acc.restocked ++ (ps.map (fun p => (url, p))).filterMap
          (fun vq => restockEntry oldProducts vq.1 vq.2),
        processed := acc.processed ++
          (ps.map (fun p => (url, p))).map (fun vq => vq.2.handle) } := by
  induction ps generalizing acc with
  | nil => simp
  | cons p t ih =>
    rw [List.foldl_cons, processProduct_eq, ih]
    cases hne : newItemEntry oldProducts url p <;>
      cases hre : restockEntry oldProducts url p <;>
        simp [streamInsert, hne, hre, List.filterMap_cons]

theorem foldl_processSource_eq (oldProducts : StateMap)
    (sources : List (String × Option (List ProductRecord))) (acc : RunAcc) :
    sources.foldl (processSource oldProducts) acc =
      { newState := (recordStream sources).foldl
          (streamInsert oldProducts) acc.newState,
        newItems := acc.newItems ++ (recordStream sources).filterMap
          (fun vq => newItemEntry oldProducts vq.1 vq.2),
        restocked := acc.restocked ++ (recordStream sources).filterMap
          (fun vq => restockEntry oldProducts vq.1 vq.2),
        processed := acc.processed ++
          (recordStream sources).map (fun vq => vq.2.handle) } := by
  induction sources generalizing acc with
  | nil => simp [recordStream]
  | cons src rest ih =>
    rcases src with ⟨u, fetched⟩
    cases fetched with
    | none =>
      rw [List.foldl_cons]
      have hps : processSource oldProducts acc (u, none) = acc := rfl
      rw [hps, ih]
      simp [recordStream]
    | some ps =>
      rw [List.foldl_cons]
      have hps : processSource oldProducts acc (u, some ps) =
          ps.foldl (processProduct oldProducts u) acc := rfl
      rw [hps, foldl_processProduct_eq, ih]
      simp [recordStream, List.filterMap_append, List.foldl_append,
        List.map_append, List.append_assoc]

theorem runDiff_closed (oldProducts : StateMap)
    (sources : List (String × Option (List ProductRecord))) :
    runDiff oldProducts sources =
      { newState := carryOver
          ((recordStream sources).map (fun vq => vq.2.handle))
          ((recordStream sources).foldl (streamInsert oldProducts) [])
          oldProducts,
        newItems := (recordStream sources).filterMap
          (fun vq => newItemEntry oldProducts vq.1 vq.2),
        restocked := (recordStream sources).filterMap
          (fun vq => restockEntry oldProducts vq.1 vq.2),
        processed := (recordStream sources).map (fun vq => vq.2.handle) } := by
  unfold runDiff
  rw [foldl_processSource_eq]
  simp

theorem dictLookup_foldl_insert (oldProducts : StateMap)
    (stream : List (String × ProductRecord)) (m : StateMap) (h : String) :
    dictLookup (stream.foldl (streamInsert oldProducts) m) h =
      match stream.reverse.find? (fun vq => vq.2.handle == h) with
      | some vq => some (stateOf oldProducts vq.2)
      | none => dictLookup m h := by
  induction stream generalizing m with
  | nil => simp
  | cons vq t ih =>
    rw [List.foldl_cons, ih]
    simp only [List.reverse_cons, List.find?_append]
    cases hf : t.reverse.find? (fun x => x.2.handle == h) with
    | some x => simp [hf]
    | none =>
      simp only [hf, Option.none_or]
      by_cases hh : vq.2.handle = h
      · rw [List.find?_cons_of_pos _ (by simp [hh])]
        simp [streamInsert, dictLookup_insert, hh]
      · rw [List.find?_cons_of_neg _ (by simp [hh])]
        simp [streamInsert, dictLookup_insert, Ne.symm hh]

theorem dictLookup_carryOver_processed (processed : List String)
    (ns : StateMap) (oldProducts : StateMap) (h : String)
    (hp : processed.contains h = true) :
    dictLookup (carryOver processed ns oldProducts) h = dictLookup ns h := by
  unfold carryOver
  induction oldProducts generalizing ns with
  | nil => rfl
  | cons kv t ih =>
    rw [List.foldl_cons]
    by_cases hc : processed.contains kv.1 = true
    · rw [if_pos hc]
      exact ih ns
    · rw [if_neg hc]
      rw [ih (dictInsert ns kv.1 ⟨kv.2.title, false, false⟩)]
      have hne : h ≠ kv.1 := by
        intro he
        rw [← he] at hc
        exact hc hp
      rw [dictLookup_insert]
      exact if_neg hne

theorem dictLookup_carryOver_not_processed (processed : List String)
    (ns : StateMap) (oldProducts : StateMap) (h : String)
    (hp : processed.contains h = false) :
    dictLookup (carryOver processed ns oldProducts) h =
      match oldProducts.reverse.find? (fun kv => kv.1 == h) with
      | some kv => some ⟨kv.2.title, false, false⟩
      | none => dictLookup ns h := by
  unfold carryOver
  induction oldProducts generalizing ns with
  | nil => rfl
  | cons kv t ih =>
    rw [List.foldl_cons]
    simp only [List.reverse_cons, List.find?_append]
    cases hf : t.reverse.find? (fun x => x.1 == h) with
    | some x =>
      by_cases hc : processed.contains kv.1 = true
      · rw [if_pos hc, ih ns, hf]
        simp
      · rw [if_neg hc, ih (dictInsert ns kv.1 ⟨kv.2.title, false, false⟩), hf]
        simp
    | none =>
      simp only [hf, Option.none_or]
      by_cases hh : kv.1 = h
      · have hc : ¬ processed.contains kv.1 = true := by
          rw [hh, hp]
          exact Bool.false_ne_true
        rw [if_neg hc, ih (dictInsert ns kv.1 ⟨kv.2.title, false, false⟩), hf,
          List.find?_cons_of_pos _ (by simp [hh])]
        simp [dictLookup_insert, hh]
      · rw [List.find?_cons_of_neg _ (by simp [hh])]
        by_cases hc : processed.contains kv.1 = true
        · rw [if_pos hc, ih ns, hf]
          rfl
        · rw [if_neg hc, ih (dictInsert ns kv.1 ⟨kv.2.title, false, false⟩), hf]
          simp [dictLookup_insert, Ne.symm hh]

/-- The final `new_state['products']` dict, characterized: a handle
fetched this run holds the state computed from its *last* record; a
handle only known from the prior state is carried over with
`available=False`, `notified_for_available=False` and its title kept;
anything else is absent. -/
theorem runDiff_lookup (oldProducts : StateMap)
    (sources : List (String × Option (List ProductRecord))) (h : String) :
    dictLookup (runDiff oldProducts sources).newState h =
      match (recordStream sources).reverse.find?
          (fun vq => vq.2.handle == h) with
      | some vq => some (stateOf oldProducts vq.2)
      | none =>
        match oldProducts.reverse.find? (fun kv => kv.1 == h) with
        | some kv => some ⟨kv.2.title, false, false⟩
        | none => none := by
  rw [runDiff_closed]
  cases hf : (recordStream sources).reverse.find?
      (fun vq => vq.2.handle == h) with
  | some vq =>
    have hmem : vq ∈ (recordStream sources).reverse :=
      List.mem_of_find?_eq_some hf
    have hpred0 := List.find?_some hf
    have hpred : (vq.2.handle == h) = true := by simpa using hpred0
    have hmemmap : h ∈ (recordStream sources).map (fun vq => vq.2.handle) :=
      List.mem_map.mpr ⟨vq, List.mem_reverse.mp hmem, beq_iff_eq.mp hpred⟩
    have hp : ((recordStream sources).map
        (fun vq => vq.2.handle)).contains h = true :=
      List.elem_eq_true_of_mem hmemmap
    rw [dictLookup_carryOver_processed _ _ _ _ hp, dictLookup_foldl_insert, hf]
  | none =>
    have hp : ((recordStream sources).map
        (fun vq => vq.2.handle)).contains h = false := by
      cases hcb : ((recordStream sources).map
          (fun vq => vq.2.handle)).contains h with
      | false => rfl
      | true =>
        exfalso
        have hm : h ∈ (recordStream sources).map (fun vq => vq.2.handle) :=
          List.elem_iff.mp hcb
        rcases List.mem_map.mp hm with ⟨vq, hvq, hh⟩
        have hnp := List.find?_eq_none.mp hf vq (List.mem_reverse.mpr hvq)
        exact hnp (by simp [hh])
    rw [dictLookup_carryOver_not_processed _ _ _ _ hp]
    cases ho : oldProducts.reverse.find? (fun kv => kv.1 == h) with
    | some kv => rfl
    | none =>
      rw [dictLookup_foldl_insert, hf]
      rfl

theorem runDiff_newItems (oldProducts : StateMap)
    (sources : List (String × Option (List ProductRecord))) :
    (runDiff oldProducts sources).newItems =
      (recordStream sources).filterMap
        (fun vq => newItemEntry oldProducts vq.1 vq.2) := by
  rw [runDiff_closed]

theorem runDiff_restocked (oldProducts : StateMap)
    (sources : List (String × Option (List ProductRecord))) :
    (runDiff oldProducts sources).restocked =
      (recordStream sources).filterMap
        (fun vq => restockEntry oldProducts vq.1 vq.2) := by
  rw [runDiff_closed]

theorem stateOf_available (oldProducts : StateMap) (p : ProductRecord) :
    (stateOf oldProducts p).available = currentAvail p := rfl

theorem stateOf_title (oldProducts : StateMap) (p : ProductRecord) :
    (stateOf oldProducts p).title = p.title := rfl

theorem stateOf_invariant (oldProducts : StateMap) (p : ProductRecord) :
    (stateOf oldProducts p).notified_for_available = true →
      (stateOf oldProducts p).available = true := by
  unfold stateOf
  cases hc : currentAvail p <;> simp [hc]

theorem count_filterMap_eq_countP {α β : Type} [BEq β] [LawfulBEq β]
    (f : α → Option β) (l : List α) (b : β) :
    (l.filterMap f).count b = l.countP (fun a => f a == some b) := by
  induction l with
  | nil => rfl
  | cons a t ih =>
    rw [List.filterMap_cons, List.countP_cons]
    cases hf : f a with
    | none =>
      simp only [hf]
      rw [ih]
      simp
    | some c =>
      simp only [hf]
      rw [List.count_cons, ih]
      by_cases hb : c = b <;> simp [hb]

theorem find_last_self {α : Type} (f : α → String) (l : List α) (x : α)
    (hx : x ∈ l) (hnd : (l.map f).Nodup) :
    l.reverse.find? (fun y => f y == f x) = some x := by
  induction l with
  | nil => exact absurd hx (List.not_mem_nil x)
  | cons a t ih =>
    rw [List.map_cons, List.nodup_cons] at hnd
    rw [List.reverse_cons, List.find?_append]
    rcases List.mem_cons.mp hx with rfl | hxt
    · have hnone : t.reverse.find? (fun y => f y == f x) = none := by
        rw [List.find?_eq_none]
        intro y hy hbeq
        exact hnd.1 (List.mem_map.mpr
          ⟨y, List.mem_reverse.mp hy, beq_iff_eq.mp hbeq⟩)
      rw [hnone, Option.none_or, List.find?_cons_of_pos _ (by simp)]
    · rw [ih hxt hnd.2]
      simp

theorem nodup_lookup_reverse (oldProducts : StateMap)
    (hnd : (oldProducts.map Prod.fst).Nodup) (h : String) :
    (oldProducts.reverse.find? (fun kv => kv.1 == h)).map Prod.snd =
      dictLookup oldProducts h := by
  induction oldProducts with
  | nil => rfl
  | cons kv t ih =>
    rw [List.map_cons, List.nodup_cons] at hnd
    rw [List.reverse_cons, List.find?_append]
    by_cases hh : kv.1 = h
    · have hnone : t.reverse.find? (fun kv => kv.1 == h) = none := by
        rw [List.find?_eq_none]
        intro y hy hbeq
        exact hnd.1 (List.mem_map.mpr
          ⟨y, List.mem_reverse.mp hy, by rw [beq_iff_eq.mp hbeq, hh]⟩)
      rw [hnone, Option.none_or, List.find?_cons_of_pos _ (by simp [hh])]
      unfold dictLookup
      rw [List.find?_cons_of_pos _ (by simp [hh])]
    · have hone : ([kv].find? (fun kv => kv.1 == h)) = none := by
        rw [List.find?_cons_of_neg _ (by simp [hh])]
        rfl
      rw [hone, Option.or_none, ih hnd.2]
      unfold dictLookup
      rw [List.find?_cons_of_neg _ (by simp [hh])]

/-! ### Concrete fixtures for witnesses and counterexamples -/

/-- A record for handle `h`, title `t`, with one available variant. -/
def ceAvail : ProductRecord := ⟨"h", "t", [⟨true⟩]⟩

/-- A record for the same handle `h` with no variants (unavailable). -/
def ceUnavail : ProductRecord := ⟨"h", "t", []⟩

/-- The same source url listed twice in `COLLECTION_URLS`, both fetches
succeeding with the same record. -/
def ceDupSources : List (String × Option (List ProductRecord)) :=
  [("u", some [ceAvail]), ("u", some [ceAvail])]

/-- Two distinct sources whose fetches share the handle `h`: the first
reports it available, the second unavailable. -/
def ceMixSources : List (String × Option (List ProductRecord)) :=
  [("u", some [ceAvail]), ("v", some [ceUnavail])]

/-- A prior state in which `h` is known, unavailable and un-notified. -/
def ceOldRestock : StateMap := [("h", ⟨"t", false, false⟩)]

/-! ### C1 -/

/-- C1 (amended): a record whose handle is absent from the prior state
and currently available contributes its `(title, link)` pair to the
new-items list, and the pair's multiplicity is exactly the number of
new-and-available records across the whole run that produce that pair
(so exactly once when this record alone produces it); moreover, if the
record is the last one in the run with its handle, the next state maps
the handle to `notified_for_available=true`. -/
theorem c1_new_and_available (oldProducts : StateMap)
    (sources : List (String × Option (List ProductRecord)))
    (u : String) (p : ProductRecord)
    (hmem : (u, p) ∈ recordStream sources)
    (hnew : dictLookup oldProducts p.handle = none)
    (havail : currentAvail p = true) :
    (p.title, linkOf u p.handle) ∈ (runDiff oldProducts sources).newItems
    ∧ (runDiff oldProducts sources).newItems.count
        (p.title, linkOf u p.handle) =
      (recordStream sources).countP
        (fun vq => newItemEntry oldProducts vq.1 vq.2 ==
          some (p.title, linkOf u p.handle))
    ∧ ((recordStream sources).reverse.find?
        (fun vq => vq.2.handle == p.handle) = some (u, p) →
      dictLookup (runDiff oldProducts sources).newState p.handle =
        some ⟨p.title, true, true⟩) := by
  have hentry : newItemEntry oldProducts u p =
      some (p.title, linkOf u p.handle) := by
    unfold newItemEntry
    rw [hnew, havail]
    simp
  refine ⟨?_, ?_, ?_⟩
  · rw [runDiff_newItems]
    exact List.mem_filterMap.mpr ⟨(u, p), hmem, hentry⟩
  · rw [runDiff_newItems, count_filterMap_eq_countP]
  · intro hlast
    rw [runDiff_lookup, hlast]
    have hst : stateOf oldProducts p = ⟨p.title, true, true⟩ := by
      unfold stateOf
      rw [hnew, havail]
      simp
    exact congrArg some hst

/-- C1 witness: prior state empty, one source, one available product. -/
theorem c1_witness :
    ("u", ceAvail) ∈ recordStream [("u", some [ceAvail])] ∧
    dictLookup [] ceAvail.handle = none ∧
    currentAvail ceAvail = true ∧
    (ceAvail.title, linkOf "u" ceAvail.handle) ∈
      (runDiff [] [("u", some [ceAvail])]).newItems := by
  refine ⟨by decide, by decide, by decide, ?_⟩
  exact (c1_new_and_available [] [("u", some [ceAvail])] "u" ceAvail
    (by decide) (by decide) (by decide)).1

/-- C1 counterexample: (a) with the same source url configured twice,
a new-and-available record's `(title, link)` pair is appended twice,
not exactly once; (b) with a second source repeating the handle as
unavailable, the run ends with `notified_for_available=false` for that
handle, not `true`. -/
theorem c1_counterexample :
    (("u", ceAvail) ∈ recordStream ceDupSources ∧
      dictLookup [] ceAvail.handle = none ∧
      currentAvail ceAvail = true ∧
      (runDiff [] ceDupSources).newItems.count
        (ceAvail.title, linkOf "u" ceAvail.handle) = 2) ∧
    (("u", ceAvail) ∈ recordStream ceMixSources ∧
      dictLookup (runDiff [] ceMixSources).newState ceAvail.handle =
        some ⟨"t", false, false⟩) := by
  decide

/-! ### C2 -/

/-- C2 (amended): a record whose handle has prior state
`available=false`, `notified_for_available=false` and which is now
available contributes its `(title, link)` pair to the restocked list,
and the pair's multiplicity is exactly the number of restock-eligible
records across the whole run producing that pair (so exactly once when
this record alone produces it). -/
theorem c2_restock_notification (oldProducts : StateMap)
    (sources : List (String × Option (List ProductRecord)))
    (u : String) (p : ProductRecord) (s : ProductState)
    (hmem : (u, p) ∈ recordStream sources)
    (hold : dictLookup oldProducts p.handle = some s)
    (hav : s.available = false)
    (hnot : s.notified_for_available = false)
    (havail : currentAvail p = true) :
    (p.title, linkOf u p.handle) ∈ (runDiff oldProducts sources).restocked
    ∧ (runDiff oldProducts sources).restocked.count
        (p.title, linkOf u p.handle) =
      (recordStream sources).countP
        (fun vq => restockEntry oldProducts vq.1 vq.2 ==
          some (p.title, linkOf u p.handle)) := by
  have hentry : restockEntry oldProducts u p =
      some (p.title, linkOf u p.handle) := by
    unfold restockEntry
    rw [hold]
    simp [hav, hnot, havail]
  refine ⟨?_, ?_⟩
  · rw [runDiff_restocked]
    exact List.mem_filterMap.mpr ⟨(u, p), hmem, hentry⟩
  · rw [runDiff_restocked, count_filterMap_eq_countP]

/-- C2 witness: Scenario B — prior `available=false, notified=false`,
fetch reports the product available. -/
theorem c2_witness :
    ("u", ceAvail) ∈ recordStream [("u", some [ceAvail])] ∧
    dictLookup ceOldRestock ceAvail.handle = some ⟨"t", false, false⟩ ∧
    currentAvail ceAvail = true ∧
    (ceAvail.title, linkOf "u" ceAvail.handle) ∈
      (runDiff ceOldRestock [("u", some [ceAvail])]).restocked := by
  refine ⟨by decide, by decide, by decide, ?_⟩
  exact (c2_restock_notification ceOldRestock [("u", some [ceAvail])] "u"
    ceAvail ⟨"t", false, false⟩ (by decide) (by decide) (by decide)
    (by decide) (by decide)).1

/-- C2 counterexample: with the same source url configured twice, the
restock-eligible record's `(title, link)` pair is appended twice, not
exactly once (the prior-state lookup is never updated during a run). -/
theorem c2_counterexample :
    ("u", ceAvail) ∈ recordStream ceDupSources ∧
    dictLookup ceOldRestock ceAvail.handle = some ⟨"t", false, false⟩ ∧
    currentAvail ceAvail = true ∧
    (runDiff ceOldRestock ceDupSources).restocked.count
      (ceAvail.title, linkOf "u" ceAvail.handle) = 2 := by
  decide

/-! ### C3 -/

/-- C3 (amended): provided no handle occurs in more than one fetched
record across the run's successful fetches, re-running the diff engine
on the same fetch results with the first run's output state as prior
state produces empty new-items and restocked lists. -/
theorem c3_idempotence (oldProducts : StateMap)
    (sources : List (String × Option (List ProductRecord)))
    (hnd : ((recordStream sources).map (fun vq => vq.2.handle)).Nodup) :
    (runDiff (runDiff oldProducts sources).newState sources).newItems = []
    ∧ (runDiff (runDiff oldProducts sources).newState sources).restocked
        = [] := by
  have key : ∀ vq ∈ recordStream sources,
      dictLookup (runDiff oldProducts sources).newState vq.2.handle =
        some (stateOf oldProducts vq.2) := by
    intro vq hvq
    rw [runDiff_lookup,
      find_last_self (fun vq => vq.2.handle) (recordStream sources) vq hvq hnd]
  constructor
  · rw [runDiff_newItems, List.filterMap_eq_nil_iff]
    intro vq hvq
    unfold newItemEntry
    rw [key vq hvq]
    simp
  · rw [runDiff_restocked, List.filterMap_eq_nil_iff]
    intro vq hvq
    unfold restockEntry
    rw [key vq hvq]
    have hsa := stateOf_available oldProducts vq.2
    cases hc : currentAvail vq.2 <;> simp [hsa, hc]

/-- C3 witness: one source, one product; handles are trivially unique. -/
theorem c3_witness :
    ((recordStream [("u", some [ceAvail])]).map
      (fun vq => vq.2.handle)).Nodup ∧
    (runDiff (runDiff [] [("u", some [ceAvail])]).newState
      [("u", some [ceAvail])]).newItems = [] ∧
    (runDiff (runDiff [] [("u", some [ceAvail])]).newState
      [("u", some [ceAvail])]).restocked = [] := by
  refine ⟨by decide, ?_⟩
  exact c3_idempotence [] [("u", some [ceAvail])] (by decide)

/-- C3 counterexample: two sources share the handle `h` (available in
the first fetch, unavailable in the second).  The first run stores
`available=false, notified=false` for `h`, so the identical second run
emits a restock notification instead of none. -/
theorem c3_counterexample :
    (runDiff (runDiff [] ceMixSources).newState ceMixSources).restocked =
      [("t", "u/products/h")] ∧
    (runDiff (runDiff [] ceMixSources).newState ceMixSources).restocked ≠
      ([] : List (String × String)) := by
  decide

/-! ### C4 -/

/-- C4: in the state produced by a run, `notified_for_available=true`
implies `available=true` for every handle; in particular a stored
`available=false` forces `notified_for_available=false`, and a product
whose last fetched record this run is unavailable is stored as
`⟨title, false, false⟩`. -/
theorem c4_notified_implies_available (oldProducts : StateMap)
    (sources : List (String × Option (List ProductRecord))) :
    (∀ h s, dictLookup (runDiff oldProducts sources).newState h = some s →
      s.notified_for_available = true → s.available = true)
    ∧ (∀ h s, dictLookup (runDiff oldProducts sources).newState h = some s →
      s.available = false → s.notified_for_available = false)
    ∧ (∀ u p, (u, p) ∈ recordStream sources → currentAvail p = false →
      (recordStream sources).reverse.find?
          (fun vq => vq.2.handle == p.handle) = some (u, p) →
      dictLookup (runDiff oldProducts sources).newState p.handle =
        some ⟨p.title, false, false⟩) := by
  have main : ∀ h s,
      dictLookup (runDiff oldProducts sources).newState h = some s →
      s.notified_for_available = true → s.available = true := by
    intro h s hl hn
    rw [runDiff_lookup] at hl
    cases hf : (recordStream sources).reverse.find?
        (fun vq => vq.2.handle == h) with
    | some vq =>
      rw [hf] at hl
      have hs : s = stateOf oldProducts vq.2 := (Option.some_inj.mp hl).symm
      rw [hs] at hn ⊢
      exact stateOf_invariant oldProducts vq.2 hn
    | none =>
      rw [hf] at hl
      cases ho : oldProducts.reverse.find? (fun kv => kv.1 == h) with
      | some kv =>
        rw [ho] at hl
        have hs : s = ⟨kv.2.title, false, false⟩ := (Option.some_inj.mp hl).symm
        rw [hs] at hn
        exact absurd hn (by simp)
      | none =>
        rw [ho] at hl
        exact absurd hl (by simp)
  refine ⟨main, ?_, ?_⟩
  · intro h s hl hav
    cases hn : s.notified_for_available with
    | false => rfl
    | true =>
      have := main h s hl hn
      rw [this] at hav
      exact absurd hav (by simp)
  · intro u p hm hc hlast
    rw [runDiff_lookup, hlast]
    have hst : stateOf oldProducts p = ⟨p.title, false, false⟩ := by
      unfold stateOf
      simp [hc]
    exact congrArg some hst

/-- C4 witness: a new available product ends notified and available;
the invariant instantiates on it. -/
theorem c4_witness :
    dictLookup (runDiff [] [("u", some [ceAvail])]).newState "h" =
      some ⟨"t", true, true⟩ ∧
    (⟨"t", true, true⟩ : ProductState).available = true := by
  refine ⟨by decide, ?_⟩
  exact (c4_notified_implies_available [] [("u", some [ceAvail])]).1 "h"
    ⟨"t", true, true⟩ (by decide) (by decide)

/-! ### C5 -/

/-- C5: a previously known handle absent from every successful fetch is
carried over as `⟨old title, false, false⟩`; a fetched product (its last
record, as cross-source collisions overwrite) is stored with title and
availability from the fetch. -/
theorem c5_carry_over_and_fetch_reflection (oldProducts : StateMap)
    (sources : List (String × Option (List ProductRecord)))
    (hnd : (oldProducts.map Prod.fst).Nodup) :
    (∀ h s, dictLookup oldProducts h = some s →
      (∀ vq ∈ recordStream sources, vq.2.handle ≠ h) →
      dictLookup (runDiff oldProducts sources).newState h =
        some ⟨s.title, false, false⟩)
    ∧ (∀ u p, (u, p) ∈ recordStream sources →
      (recordStream sources).reverse.find?
          (fun vq => vq.2.handle == p.handle) = some (u, p) →
      ∃ b, dictLookup (runDiff oldProducts sources).newState p.handle =
        some ⟨p.title, currentAvail p, b⟩) := by
  constructor
  · intro h s hl habs
    rw [runDiff_lookup]
    have hfnone : (recordStream sources).reverse.find?
        (fun vq => vq.2.handle == h) = none := by
      rw [List.find?_eq_none]
      intro vq hvq hbeq
      exact habs vq (List.mem_reverse.mp hvq) (beq_iff_eq.mp hbeq)
    rw [hfnone]
    have hrev := nodup_lookup_reverse oldProducts hnd h
    rw [hl] at hrev
    cases ho : oldProducts.reverse.find? (fun kv => kv.1 == h) with
    | some kv =>
      rw [ho] at hrev
      have hkv : kv.2 = s := Option.some_inj.mp hrev
      exact congrArg some (by rw [hkv])
    | none =>
      rw [ho] at hrev
      exact absurd hrev (by simp)
  · intro u p hm hlast
    rw [runDiff_lookup, hlast]
    exact ⟨(stateOf oldProducts p).notified_for_available, rfl⟩

/-- C5 witness: a handle only known from the prior state is carried
over with its title preserved and both flags reset. -/
theorem c5_witness :
    ((([("g", ⟨"G", true, true⟩)] : StateMap).map Prod.fst).Nodup) ∧
    dictLookup (runDiff [("g", ⟨"G", true, true⟩)]
      [("u", some [ceAvail])]).newState "g" = some ⟨"G", false, false⟩ := by
  refine ⟨by decide, ?_⟩
  exact (c5_carry_over_and_fetch_reflection [("g", ⟨"G", true, true⟩)]
    [("u", some [ceAvail])] (by decide)).1 "g" ⟨"G", true, true⟩
    (by decide) (by decide)

/-! ### Text helpers: splitlines / strip / chunking lemmas -/

theorem splitlines_ne_nil (cs : List Char) :
    ∀ l ∈ splitlinesKeepends cs, l ≠ [] := by
  induction cs using splitlinesKeepends.induct with
  | case1 => simp [splitlinesKeepends]
  | case2 rest ih =>
    intro l hl
    rw [splitlinesKeepends.eq_2] at hl
    rcases List.mem_cons.mp hl with rfl | h
    · simp
    · exact ih l h
  | case3 rest hne ih =>
    intro l hl
    rw [splitlinesKeepends.eq_3 rest hne] at hl
    rcases List.mem_cons.mp hl with rfl | h
    · simp
    · exact ih l h
  | case4 rest ih =>
    intro l hl
    rw [splitlinesKeepends.eq_4] at hl
    rcases List.mem_cons.mp hl with rfl | h
    · simp
    · exact ih l h
  | case5 c rest h1 h2 h3 ih =>
    intro l hl
    rw [splitlinesKeepends.eq_5 c rest h1 h2 h3] at hl
    cases hs : splitlinesKeepends rest with
    | nil =>
      rw [hs] at hl
      unfold consFirst at hl
      rcases List.mem_cons.mp hl with rfl | h
      · simp
      · exact absurd h (List.not_mem_nil l)
    | cons l0 ls =>
      rw [hs] at hl
      unfold consFirst at hl
      rcases List.mem_cons.mp hl with rfl | h
      · simp
      · exact ih l (by rw [hs]; exact List.mem_cons_of_mem l0 h)

theorem consFirst_flatten (c : Char) (ls : List (List Char)) :
    (consFirst c ls).flatten = c :: ls.flatten := by
  cases ls <;> simp [consFirst]

theorem splitlines_flatten (cs : List Char) :
    (splitlinesKeepends cs).flatten = cs := by
  induction cs using splitlinesKeepends.induct with
  | case1 => rfl
  | case2 rest ih => rw [splitlinesKeepends.eq_2]; simp [ih]
  | case3 rest hne ih => rw [splitlinesKeepends.eq_3 rest hne]; simp [ih]
  | case4 rest ih => rw [splitlinesKeepends.eq_4]; simp [ih]
  | case5 c rest h1 h2 h3 ih =>
    rw [splitlinesKeepends.eq_5 c rest h1 h2 h3, consFirst_flatten, ih]

theorem pyStrip_length_le (cs : List Char) :
    (pyStrip cs).length ≤ cs.length := by
  unfold pyStrip
  have h1 : (cs.dropWhile Char.isWhitespace).length ≤ cs.length :=
    (List.dropWhile_suffix _).length_le
  have h2 : ((cs.dropWhile Char.isWhitespace).reverse.dropWhile
      Char.isWhitespace).length ≤
      (cs.dropWhile Char.isWhitespace).reverse.length :=
    (List.dropWhile_suffix _).length_le
  simp only [List.length_reverse] at h2 ⊢
  omega

theorem dropWhile_dropWhile (p : Char → Bool) (l : List Char) :
    (l.dropWhile p).dropWhile p = l.dropWhile p := by
  induction l with
  | nil => rfl
  | cons a t ih =>
    cases hp : p a with
    | true => simp [List.dropWhile, hp, ih]
    | false => simp [List.dropWhile, hp]

theorem head_dropWhile_false (p : Char → Bool) (l : List Char) :
    ∀ ch, (l.dropWhile p).head? = some ch → p ch = false := by
  induction l with
  | nil => intro ch h; exact absurd h (by simp)
  | cons a t ih =>
    intro ch h
    cases hp : p a with
    | true =>
      rw [show (a :: t).dropWhile p = t.dropWhile p by simp [List.dropWhile, hp]] at h
      exact ih ch h
    | false =>
      rw [show (a :: t).dropWhile p = a :: t by simp [List.dropWhile, hp]] at h
      have : ch = a := by simpa using h.symm
      rw [this]
      exact hp

theorem dropWhile_eq_self_of_head (p : Char → Bool) (l : List Char)
    (h : ∀ ch, l.head? = some ch → p ch = false) : l.dropWhile p = l := by
  cases l with
  | nil => rfl
  | cons a t =>
    have : p a = false := h a rfl
    simp [List.dropWhile, this]

theorem pyStrip_idem (cs : List Char) : pyStrip (pyStrip cs) = pyStrip cs := by
  have key : ∀ xs : List Char,
      ((xs.dropWhile Char.isWhitespace).reverse.dropWhile
        Char.isWhitespace).reverse.dropWhile Char.isWhitespace =
      ((xs.dropWhile Char.isWhitespace).reverse.dropWhile
        Char.isWhitespace).reverse := by
    intro xs
    apply dropWhile_eq_self_of_head
    intro ch hch
    rw [List.head?_reverse] at hch
    obtain ⟨t, ht⟩ := List.dropWhile_suffix
      (l := (xs.dropWhile Char.isWhitespace).reverse) Char.isWhitespace
    have hgl : (xs.dropWhile Char.isWhitespace).reverse.getLast? = some ch := by
      rw [← ht, List.getLast?_append, hch]
      rfl
    rw [List.getLast?_reverse] at hgl
    exact head_dropWhile_false Char.isWhitespace xs ch hgl
  show (((pyStrip cs).dropWhile Char.isWhitespace).reverse.dropWhile
      Char.isWhitespace).reverse = pyStrip cs
  unfold pyStrip
  rw [key cs, List.reverse_reverse, dropWhile_dropWhile]

theorem chunkLoop_append_acc (limit : Nat) (lines : List (List Char)) :
    ∀ (chunks : List (List Char)) (cur : List Char),
      chunkLoop limit lines chunks cur =
        chunks ++ chunkLoop limit lines [] cur := by
  induction lines with
  | nil =>
    intro chunks cur
    by_cases hc : cur ≠ [] <;> simp [chunkLoop, hc]
  | cons line rest ih =>
    intro chunks cur
    unfold chunkLoop
    by_cases hf : cur.length + line.length > limit
    · rw [if_pos hf, if_pos hf, ih (chunks ++ [pyStrip cur]) line,
        ih ([] ++ [pyStrip cur]) line]
      simp
    · rw [if_neg hf, if_neg hf, ih chunks (cur ++ line)]

theorem chunkLoop_mem_strip (limit : Nat) (lines : List (List Char)) :
    ∀ (chunks : List (List Char)) (cur : List Char),
      ∀ c ∈ chunkLoop limit lines chunks cur,
        c ∈ chunks ∨ ∃ x, c = pyStrip x := by
  induction lines with
  | nil =>
    intro chunks cur c hc
    unfold chunkLoop at hc
    by_cases h : cur ≠ []
    · rw [if_pos h] at hc
      rcases List.mem_append.mp hc with h1 | h1
      · exact Or.inl h1
      · exact Or.inr ⟨cur, (by simpa using h1)⟩
    · rw [if_neg h] at hc
      exact Or.inl hc
  | cons line rest ih =>
    intro chunks cur c hc
    unfold chunkLoop at hc
    by_cases hf : cur.length + line.length > limit
    · rw [if_pos hf] at hc
      rcases ih (chunks ++ [pyStrip cur]) line c hc with h1 | h1
      · rcases List.mem_append.mp h1 with h2 | h2
        · exact Or.inl h2
        · exact Or.inr ⟨cur, by simpa using h2⟩
      · exact Or.inr h1
    · rw [if_neg hf] at hc
      exact ih chunks (cur ++ line) c hc

/-- Invariant of the chunking loop: the emitted chunks are the strips
of a partition of the consumed lines into consecutive blocks, where a
block either fits the limit or is one single (oversized) line. -/
theorem chunkLoop_spec (limit : Nat) (lines : List (List Char)) :
    ∀ (chunks : List (List Char)) (curBlock : List (List Char)),
      (∀ l ∈ lines, l ≠ []) →
      (curBlock.flatten.length ≤ limit ∨ ∃ l, curBlock = [l]) →
      (curBlock ≠ [] → curBlock.flatten ≠ []) →
      ∃ blocks : List (List (List Char)),
        blocks.flatten = curBlock ++ lines ∧
        chunkLoop limit lines chunks curBlock.flatten =
          chunks ++ blocks.map (fun b => pyStrip b.flatten) ∧
        ∀ b ∈ blocks, b.flatten.length ≤ limit ∨ ∃ l, b = [l] := by
  induction lines with
  | nil =>
    intro chunks curBlock _ h2 h3
    by_cases hc : curBlock = []
    · subst hc
      exact ⟨[], by simp, by simp [chunkLoop], by simp⟩
    · have hcur : curBlock.flatten ≠ [] := h3 hc
      refine ⟨[curBlock], by simp, ?_, ?_⟩
      · unfold chunkLoop
        rw [if_pos hcur]
        simp
      · intro b hb
        rw [List.mem_singleton.mp hb]
        exact h2
  | cons line rest ih =>
    intro chunks curBlock h1 h2 h3
    have hline : line ≠ [] := h1 line (List.mem_cons_self line rest)
    have h1' : ∀ l ∈ rest, l ≠ [] :=
      fun l hl => h1 l (List.mem_cons_of_mem line hl)
    unfold chunkLoop
    by_cases hf : curBlock.flatten.length + line.length > limit
    · rw [if_pos hf]
      obtain ⟨blocks', hb1, hb2, hb3⟩ :=
        ih (chunks ++ [pyStrip curBlock.flatten]) [line] h1'
          (Or.inr ⟨line, rfl⟩) (fun _ => by simpa using hline)
      rw [show ([line] : List (List Char)).flatten = line by simp] at hb2
      refine ⟨curBlock :: blocks', ?_, ?_, ?_⟩
      · rw [List.flatten_cons, hb1]
        simp
      · rw [hb2]
        simp
      · intro b hb
        rcases List.mem_cons.mp hb with rfl | hb'
        · exact h2
        · exact hb3 b hb'
    · rw [if_neg hf]
      obtain ⟨blocks', hb1, hb2, hb3⟩ := ih chunks (curBlock ++ [line]) h1'
        (Or.inl (by
          simp only [List.flatten_append, List.flatten_cons,
            List.flatten_nil, List.append_nil, List.length_append]
          omega))
        (fun _ => by
          simp only [List.flatten_append, List.flatten_cons,
            List.flatten_nil, List.append_nil]
          simp [hline])
      rw [show (curBlock ++ [line]).flatten = curBlock.flatten ++ line
        by simp] at hb2
      refine ⟨blocks', ?_, hb2, hb3⟩
      rw [hb1]
      simp

/-- C7: every chunk is the strip of a block of consecutive whole input
lines (so chunk boundaries fall on line boundaries and the blocks
concatenate back to the exact line decomposition of the input), and
every block either fits within the limit (hence so does its stripped
chunk) or is one single line longer than the limit, emitted as its own
oversized chunk. -/
theorem c7_chunk_bounds (text : List Char) (limit : Nat)
    (_hlim : 0 < limit) :
    ∃ blocks : List (List (List Char)),
      blocks.flatten = splitlinesKeepends text ∧
      (splitlinesKeepends text).flatten = text ∧
      chunk_text_by_lines text limit =
        blocks.map (fun b => pyStrip b.flatten) ∧
      ∀ b ∈ blocks,
        ((pyStrip b.flatten).length ≤ limit ∧ b.flatten.length ≤ limit) ∨
        ∃ l, b = [l] ∧ limit < l.length := by
  obtain ⟨blocks, h1, h2, h3⟩ := chunkLoop_spec limit (splitlinesKeepends text)
    [] [] (splitlines_ne_nil text) (Or.inl (by simp)) (fun h => absurd rfl h)
  refine ⟨blocks, by simpa using h1, splitlines_flatten text, ?_, ?_⟩
  · unfold chunk_text_by_lines
    simpa using h2
  · intro b hb
    rcases h3 b hb with hle | ⟨l, rfl⟩
    · exact Or.inl ⟨le_trans (pyStrip_length_le _) hle, hle⟩
    · by_cases hl : l.length ≤ limit
      · refine Or.inl ?_
        rw [show ([l] : List (List Char)).flatten = l by simp]
        exact ⟨le_trans (pyStrip_length_le _) hl, hl⟩
      · exact Or.inr ⟨l, rfl, Nat.lt_of_not_le hl⟩

/-- C7 witness: a concrete text with a short, a grouped and an
oversized line, at limit 5. -/
theorem c7_witness :
    0 < 5 ∧
    ∃ blocks : List (List (List Char)),
      blocks.flatten = splitlinesKeepends ("ab\ncd\nefghij\nkl".data) ∧
      (splitlinesKeepends ("ab\ncd\nefghij\nkl".data)).flatten =
        "ab\ncd\nefghij\nkl".data ∧
      chunk_text_by_lines ("ab\ncd\nefghij\nkl".data) 5 =
        blocks.map (fun b => pyStrip b.flatten) ∧
      ∀ b ∈ blocks,
        ((pyStrip b.flatten).length ≤ 5 ∧ b.flatten.length ≤ 5) ∨
        ∃ l, b = [l] ∧ 5 < l.length :=
  ⟨by decide, c7_chunk_bounds ("ab\ncd\nefghij\nkl".data) 5 (by decide)⟩

/-! ### C10 -/

/-- C10: every chunk emitted by `chunk_text_by_lines` is fully stripped
(stripping it again changes nothing); when the first input line exceeds
the limit, the first emitted chunk is the empty string; and as a
consequence the concatenation of the chunks can differ from the
original text (shown on `" a\n"`, whose only chunk is `"a"`). -/
theorem c10_strip_and_empty_first_chunk :
    (∀ (text : List Char) (limit : Nat),
      ∀ c ∈ chunk_text_by_lines text limit, pyStrip c = c)
    ∧ (∀ (text : List Char) (limit : Nat) (l0 : List Char)
        (rest : List (List Char)),
        splitlinesKeepends text = l0 :: rest → limit < l0.length →
        (chunk_text_by_lines text limit).head? = some [])
    ∧ (chunk_text_by_lines (" a\n".data) 10).flatten ≠ " a\n".data := by
  refine ⟨?_, ?_, by decide⟩
  · intro text limit c hc
    rcases chunkLoop_mem_strip limit (splitlinesKeepends text) [] [] c hc
      with h | ⟨x, rfl⟩
    · exact absurd h (List.not_mem_nil c)
    · exact pyStrip_idem x
  · intro text limit l0 rest hsplit hlen
    unfold chunk_text_by_lines
    rw [hsplit]
    unfold chunkLoop
    rw [if_pos (by simpa using hlen), chunkLoop_append_acc]
    rfl

/-- C10 witness: first line of length 9 against limit 5 yields a
leading empty chunk. -/
theorem c10_witness :
    splitlinesKeepends ("abcdefgh\nxy".data) =
      ("abcdefgh\n".data) :: [("xy".data)] ∧
    5 < ("abcdefgh\n".data).length ∧
    (chunk_text_by_lines ("abcdefgh\nxy".data) 5).head? = some [] := by
  refine ⟨by decide, by decide, ?_⟩
  exact c10_strip_and_empty_first_chunk.2.1 ("abcdefgh\nxy".data) 5
    ("abcdefgh\n".data) [("xy".data)] (by decide) (by decide)

/-! ### C8 -/

/-- The indices `i, i+1, ..., i+k-1`. -/
def seqFrom (i : Nat) : Nat → List Nat
  | 0 => []
  | k + 1 => i :: seqFrom (i + 1) k

/-- The send loop attempts a prefix of the chunks, in index order:
there is a `k` such that exactly chunks `i..i+k-1` are attempted, every
attempt before the last succeeded, and if any chunk was left unsent the
last attempted one failed. -/
theorem sendTrace_spec (outcome : Nat → Bool) (chunks : List (List Char)) :
    ∀ i : Nat, ∃ k : Nat, k ≤ chunks.length ∧
      (sendTrace outcome chunks i).map Prod.fst = seqFrom i k ∧
      (sendTrace outcome chunks i).map Prod.snd = chunks.take k ∧
      (∀ t, t + 1 < k → outcome (i + t) = true) ∧
      (k < chunks.length → 1 ≤ k ∧ outcome (i + k - 1) = false) := by
  induction chunks with
  | nil =>
    intro i
    exact ⟨0, Nat.le_refl 0, rfl, rfl, fun t ht => absurd ht (by omega),
      fun h => absurd h (by simp)⟩
  | cons c rest ih =>
    intro i
    cases ho : outcome i with
    | false =>
      refine ⟨1, by simp, ?_, ?_, fun t ht => absurd ht (by omega), ?_⟩
      · simp [sendTrace, ho, seqFrom]
      · simp [sendTrace, ho]
      · intro _
        refine ⟨Nat.le_refl 1, ?_⟩
        rw [show i + 1 - 1 = i from by omega]
        exact ho
    | true =>
      obtain ⟨k, hk1, hk2, hk3, hk4, hk5⟩ := ih (i + 1)
      refine ⟨k + 1, by simpa using hk1, ?_, ?_, ?_, ?_⟩
      · simp only [sendTrace, ho, if_true, List.map_cons, seqFrom]
        rw [hk2]
      · simp only [sendTrace, ho, if_true, List.map_cons, List.take_succ_cons]
        rw [hk3]
      · intro t ht
        cases t with
        | zero => simpa using ho
        | succ s =>
          rw [show i + (s + 1) = (i + 1) + s from by omega]
          exact hk4 s (by omega)
      · intro hlt
        have hk := hk5 (by simpa using hlt)
        refine ⟨by omega, ?_⟩
        rw [show i + (k + 1) - 1 = (i + 1) + k - 1 from by omega]
        exact hk.2

/-- C8: with a configured (non-empty) webhook, `notify_discord`
attempts the chunks of the message strictly in order `1..k` for some
prefix length `k`; every attempt before the last succeeded, and if any
chunk was left unattempted the last attempted send failed — so nothing
after the first failure is ever attempted, with no retry and no
skip-ahead.  In particular (second conjunct, Scenario E shape), for a
three-chunk list whose second send fails, exactly chunks 1 and 2 are
attempted and the third never is. -/
theorem c8_send_order_stops_on_failure :
    (∀ (w : String) (outcome : Nat → Bool) (message : List Char), w ≠ "" →
      ∃ k, k ≤ (chunk_text_by_lines message 2000).length ∧
        (notify_discord (some w) outcome message).map Prod.fst =
          seqFrom 1 k ∧
        (notify_discord (some w) outcome message).map Prod.snd =
          (chunk_text_by_lines message 2000).take k ∧
        (∀ t, t + 1 < k → outcome (1 + t) = true) ∧
        (k < (chunk_text_by_lines message 2000).length →
          1 ≤ k ∧ outcome (1 + k - 1) = false))
    ∧ (∀ (c1 c2 c3 : List Char) (outcome : Nat → Bool),
        outcome 1 = true → outcome 2 = false →
        (sendTrace outcome [c1, c2, c3] 1).map Prod.fst = [1, 2]) := by
  constructor
  · intro w outcome message hw
    unfold notify_discord
    rw [if_neg (by simpa using hw)]
    exact sendTrace_spec outcome (chunk_text_by_lines message 2000) 1
  · intro c1 c2 c3 outcome h1 h2
    simp [sendTrace, h1, h2]

/-- C8 witness: three chunks, the second send fails, the third is never
attempted. -/
theorem c8_witness :
    ((fun i => decide (i = 1)) 1 = true) ∧
    ((fun i => decide (i = 1)) 2 = false) ∧
    (sendTrace (fun i => decide (i = 1))
      ["a".data, "b".data, "c".data] 1).map Prod.fst = [1, 2] := by
  refine ⟨by decide, by decide, ?_⟩
  exact c8_send_order_stops_on_failure.2 "a".data "b".data "c".data
    (fun i => decide (i = 1)) (by decide) (by decide)

/-! ### C9 -/

/-- C9: when the webhook is unset (or the parsed source list is empty),
`main` emits only the configuration diagnostic: no state load, no
fetch, no save, no webhook post. -/
theorem c9_config_guard (wh urlsEnv : Option String) (prior : StateMap)
    (fetchResult : String → Option (List ProductRecord))
    (outcome : Nat → Bool) (ts : String)
    (hcfg : wh = none ∨ parseUrls (urlsEnv.getD "") = []) :
    mainRun wh urlsEnv prior fetchResult outcome ts =
      [Effect.log configErrorMsg] ∧
    Effect.loadState ∉ mainRun wh urlsEnv prior fetchResult outcome ts ∧
    (∀ u, Effect.fetch u ∉ mainRun wh urlsEnv prior fetchResult outcome ts) ∧
    (∀ s, Effect.saveState s ∉ mainRun wh urlsEnv prior fetchResult outcome ts) ∧
    (∀ c, Effect.post c ∉ mainRun wh urlsEnv prior fetchResult outcome ts) := by
  have hcond : wh.getD "" = "" ∨ parseUrls (urlsEnv.getD "") = [] := by
    rcases hcfg with h | h
    · left
      rw [h]
      rfl
    · right
      exact h
  have hmain : mainRun wh urlsEnv prior fetchResult outcome ts =
      [Effect.log configErrorMsg] := by
    simp only [mainRun]
    rw [if_pos hcond]
  refine ⟨hmain, ?_, ?_, ?_, ?_⟩
  · rw [hmain]
    intro hmem
    exact absurd (List.mem_singleton.mp hmem) (by simp)
  · intro u
    rw [hmain]
    intro hmem
    exact absurd (List.mem_singleton.mp hmem) (by simp)
  · intro s
    rw [hmain]
    intro hmem
    exact absurd (List.mem_singleton.mp hmem) (by simp)
  · intro c
    rw [hmain]
    intro hmem
    exact absurd (List.mem_singleton.mp hmem) (by simp)

/-- C9 witness: missing webhook with a configured source list. -/
theorem c9_witness :
    ((none : Option String) = none ∨
      parseUrls ((some "u" : Option String).getD "") = []) ∧
    mainRun none (some "u") [] (fun _ => none) (fun _ => true) "" =
      [Effect.log configErrorMsg] := by
  refine ⟨Or.inl rfl, ?_⟩
  exact (c9_config_guard none (some "u") [] (fun _ => none) (fun _ => true)
    "" (Or.inl rfl)).1

/-! ### C6 -/

/-- C6 exhibit: a `RequestException` is indeed caught and reported as
`None` (the failure indicator), and a well-shaped body yields its
products; but a 2xx response whose body is valid JSON that is not an
object — e.g. the JSON array `[]` — makes
`resp.json().get('products', [])` raise `AttributeError`, which the
`except requests.exceptions.RequestException` clause does not catch, so
the exception escapes `fetch_all_products` and crashes `main`. -/
theorem c6_fetch_shape_crash :
    fetch_all_products .requestError = .ok none ∧
    fetch_all_products (.ok (.pyobj [("products", .pyarr [])])) =
      .ok (some (.pyarr [])) ∧
    fetch_all_products (.ok (.pyarr [])) = .error .attributeError := by
  refine ⟨rfl, ?_, rfl⟩
  rfl

end Restock
